import Mathlib

/-!
Verification development for the UPS shipping backend.

The definitions below are shallow embeddings of the repository's JavaScript
functions.  JavaScript numbers are modelled as rationals (`ℚ`); `Math.round`
is modelled by `round : ℚ → ℤ` (both round half away from the floor, i.e.
`⌊x + 1/2⌋`).  Nullable values are modelled with `Option`.
-/

namespace UPS

open List

/-- JavaScript `Math.round`: round half toward positive infinity,
`⌊x + 1/2⌋`, written with `Int.fdiv` so the kernel can evaluate it. -/
def jsRound (x : ℚ) : ℤ := Int.fdiv (x + 1/2).num ((x + 1/2).den : ℤ)

/-- `jsRound` agrees with Mathlib's `round` on `ℚ`. -/
theorem jsRound_eq_round (x : ℚ) : jsRound x = round x := by
  rw [round_eq, Rat.floor_def, jsRound, Int.fdiv_eq_ediv _ (Int.ofNat_nonneg _)]

/-- `Math.round(x*100)/100` — round to 2 decimal places. -/
def round2 (x : ℚ) : ℚ := (jsRound (x * 100) : ℤ) / 100

/-- `Math.round(x*10)/10` — round to 1 decimal place. -/
def round1 (x : ℚ) : ℚ := (jsRound (x * 10) : ℤ) / 10

/-! ## Box packer (`src/routes/ups.js`, `packFiltersIntoBoxes`) -/

/-- One air filter: `{ length, width, depth }` as produced by `parseFilterSize`. -/
structure Filter where
  length : ℚ
  width : ℚ
  depth : ℚ
deriving DecidableEq, Repr

/-- `estimateFilterWeight(length, width, depth)`:
`Math.round((0.3 + volume * 0.002) * 100) / 100` with `volume = l*w*d`. -/
def estimateFilterWeight (length width depth : ℚ) : ℚ :=
  round2 (3/10 + (length * width * depth) * (2/1000))

/-- `MAX_DEPTH = 4` (inches) in `packFiltersIntoBoxes`. -/
def MAX_DEPTH : ℚ := 4

/-- `BOX_WEIGHT = 0.5` (lbs of cardboard) in `packFiltersIntoBoxes`. -/
def BOX_WEIGHT : ℚ := 1/2

/-- The mutable box record built inside `packFiltersIntoBoxes`:
`{ filters, length, width, currentDepth, weight }`. -/
structure PackBox where
  filters : List Filter
  length : ℚ
  width : ℚ
  currentDepth : ℚ
  weight : ℚ
deriving DecidableEq, Repr

/-- The comparator `(a, b) => b.depth - a.depth`: `a` sorts no later than `b`
iff `b.depth ≤ a.depth`. -/
def byDepthDesc (a b : Filter) : Prop := b.depth ≤ a.depth

instance : DecidableRel byDepthDesc := fun a b => inferInstanceAs (Decidable (b.depth ≤ a.depth))

instance : IsTotal Filter byDepthDesc := ⟨fun a b => le_total b.depth a.depth⟩

instance : IsTrans Filter byDepthDesc := ⟨fun _ _ _ h h' => le_trans h' h⟩

/-- `[...filters].sort((a, b) => b.depth - a.depth)` — a stable sort by depth
descending (JavaScript `Array.prototype.sort` is stable). -/
def sortByDepthDesc (filters : List Filter) : List Filter :=
  filters.insertionSort byDepthDesc

/-- Placing a filter into an existing box: the mutations performed inside the
`if (box.currentDepth + filter.depth <= MAX_DEPTH)` branch. -/
def placeInBox (b : PackBox) (f : Filter) : PackBox :=
  { filters := b.filters ++ [f]
    length := max b.length f.length
    width := max b.width f.width
    currentDepth := b.currentDepth + f.depth
    weight := b.weight + estimateFilterWeight f.length f.width f.depth }

/-- The fresh box pushed when no existing box fits. -/
def newBox (f : Filter) : PackBox :=
  { filters := [f]
    length := f.length
    width := f.width
    currentDepth := f.depth
    weight := BOX_WEIGHT + estimateFilterWeight f.length f.width f.depth }

/-- The inner `for (const box of boxes)` scan: put `f` into the first box with
`currentDepth + f.depth ≤ MAX_DEPTH`; `none` if no box fits. -/
def tryPlace (f : Filter) : List PackBox → Option (List PackBox)
  | [] => none
  | b :: bs =>
    if b.currentDepth + f.depth ≤ MAX_DEPTH then
      some (placeInBox b f :: bs)
    else
      match tryPlace f bs with
      | some bs' => some (b :: bs')
      | none => none

/-- One iteration of the outer `for (const filter of sorted)` loop. -/
def packStep (boxes : List PackBox) (f : Filter) : List PackBox :=
  match tryPlace f boxes with
  | some bs => bs
  | none => boxes ++ [newBox f]

/-- The packing loop of `packFiltersIntoBoxes` before the final mapping. -/
def packFiltersIntoBoxesRaw (filters : List Filter) : List PackBox :=
  (sortByDepthDesc filters).foldl packStep []

/-- The finalized box shape returned by `packFiltersIntoBoxes`
(the display string `dimensions` is omitted): `height` is the accumulated
`currentDepth` and `weight` is rounded to 1 decimal. -/
structure BoxOut where
  length : ℚ
  width : ℚ
  height : ℚ
  filterCount : ℕ
  weight : ℚ
deriving DecidableEq, Repr

/-- The final `boxes.map(box => ({...}))` of `packFiltersIntoBoxes`. -/
def finalizeBox (b : PackBox) : BoxOut :=
  { length := b.length
    width := b.width
    height := b.currentDepth
    filterCount := b.filters.length
    weight := round1 b.weight }

/-- `packFiltersIntoBoxes(filters)` from `src/routes/ups.js`. -/
def packFiltersIntoBoxes (filters : List Filter) : List BoxOut :=
  (packFiltersIntoBoxesRaw filters).map finalizeBox

/-! ## Tracking status mapping (`trackingPoller.js`, `mapUpsStatus`) -/

/-- `mapUpsStatus(statusType, statusCode)`.  The JavaScript guard
`if (!statusType) return null` is falsy both for an absent status type and for
the empty string, so both map to `none`; the `statusCode` argument is unused. -/
def mapUpsStatus (statusType : Option String) (statusCode : Option String) : Option String :=
  match statusType with
  | none => none
  | some t =>
    if t = "" then none
    else if t = "D" then some "delivered"
    else if t = "I" then some "in_transit"
    else if t = "P" then some "in_transit"
    else if t = "M" then some "created"
    else if t = "X" then some "exception"
    else if t = "RS" then some "returned"
    else if t = "O" then some "out_for_delivery"
    else some "in_transit"

/-! ## Tracking events (`db/trackingEvents.js`, `insertEvent`) -/

/-- One row of the `tracking_events` table (the columns `insertEvent` writes;
`id`/`polled_at`/`created_at` are database-generated and omitted).
`activityTimestamp` is the UTC instant string built by the poller
(`null` when the carrier activity has no date). -/
structure EventRow where
  shipmentId : ℕ
  trackingNumber : String
  statusCode : Option String
  statusType : Option String
  statusDescription : Option String
  locationCity : Option String
  locationState : Option String
  locationCountry : Option String
  activityTimestamp : Option String
deriving DecidableEq, Repr

/-- SQL three-valued equality `col = $n` restricted to its truth value:
it holds only when both sides are non-NULL and equal; comparison with NULL
on either side is never true. -/
def sqlEqOpt (a b : Option String) : Bool :=
  match a, b with
  | some x, some y => x == y
  | _, _ => false

/-- The `WHERE` clause of the dedup pre-check in `insertEvent`:
`tracking_number = $1 AND activity_timestamp = $2 AND status_code = $3`.
`tracking_number` is `NOT NULL` and the parameter is the shipment's tracking
number, so plain equality applies there. -/
def matchesTriple (r : EventRow) (tn : String) (ts sc : Option String) : Bool :=
  r.trackingNumber == tn && sqlEqOpt r.activityTimestamp ts && sqlEqOpt r.statusCode sc

/-- JavaScript `v || null` for an optional string: an absent value or the
falsy empty string is coerced to SQL NULL. -/
def orNull (o : Option String) : Option String :=
  match o with
  | none => none
  | some s => if s = "" then none else some s

/-- The row actually written by the `INSERT` of `insertEvent`: every optional
string column goes through `v || null` (the `activityTimestamp` parameter is a
`Date` object, which is never falsy, so it is passed through unchanged). -/
def storedRow (ev : EventRow) : EventRow :=
  { ev with
    statusCode := orNull ev.statusCode
    statusType := orNull ev.statusType
    statusDescription := orNull ev.statusDescription
    locationCity := orNull ev.locationCity
    locationState := orNull ev.locationState
    locationCountry := orNull ev.locationCountry }

/-- `insertEvent` from `db/trackingEvents.js` over an explicit event store:
the pre-check `SELECT` suppresses the insert (returning `null`) when a row
matching the `(trackingNumber, activityTimestamp, statusCode)` triple exists;
otherwise the row is appended and returned. -/
def insertEvent (store : List EventRow) (ev : EventRow) : List EventRow × Option EventRow :=
  if store.any (fun r => matchesTriple r ev.trackingNumber ev.activityTimestamp ev.statusCode) then
    (store, none)
  else
    (store ++ [storedRow ev], some (storedRow ev))

/-! ## Tracking poller (`trackingPoller.js`, `pollSingleShipment`) -/

/-- One carrier activity entry: `activity.status.type/code/description`,
`activity.location.address.*` and the raw `date` (`YYYYMMDD`) / `time`
(`HHMMSS`) fields. -/
structure Activity where
  statusType : Option String
  statusCode : Option String
  description : Option String
  locationCity : Option String
  locationState : Option String
  locationCountry : Option String
  date : Option String
  time : Option String
deriving DecidableEq, Repr

/-- The timestamp construction in the activity loop:
`new Date(dateStr + "T" + timeStr + "Z")` with a missing time defaulting to
`"00:00:00"`; `null` when the activity has no date. -/
def tsOfDateTime (date time : Option String) : Option String :=
  match date with
  | none => none
  | some d =>
    let dateStr := (d.take 4) ++ "-" ++ ((d.drop 4).take 2) ++ "-" ++ ((d.drop 6).take 2)
    let timeStr :=
      match time with
      | some t => (t.take 2) ++ ":" ++ ((t.drop 2).take 2) ++ ":" ++ ((t.drop 4).take 2)
      | none => "00:00:00"
    some (dateStr ++ "T" ++ timeStr ++ "Z")

/-- The shipment row fields read by the poller. -/
structure Shipment where
  id : ℕ
  trackingNumber : String
  status : String
deriving DecidableEq, Repr

/-- The event row built for one activity inside the poll loop. -/
def activityToEvent (sh : Shipment) (a : Activity) : EventRow :=
  { shipmentId := sh.id
    trackingNumber := sh.trackingNumber
    statusCode := a.statusCode
    statusType := a.statusType
    statusDescription := a.description
    locationCity := a.locationCity
    locationState := a.locationState
    locationCountry := a.locationCountry
    activityTimestamp := tsOfDateTime a.date a.time }

/-- The observable outcome of one `pollSingleShipment` run: the event store
after recording activities, the shipment's (possibly updated) status, the
status written by `updateShipmentStatus` (if any), whether `deliveredAt` was
stamped, and whether the Bubble workflow notification was invoked. -/
structure PollResult where
  store : List EventRow
  shipmentStatus : String
  statusWritten : Option String
  deliveredStamped : Bool
  notifyInvoked : Bool
deriving DecidableEq, Repr

/-- `activities[0].status?.type` when the activity list is non-empty. -/
def latestStatusType (activities : List Activity) : Option String :=
  match activities with
  | [] => none
  | a :: _ => a.statusType

/-- `activities[0].status?.code` when the activity list is non-empty. -/
def latestStatusCode (activities : List Activity) : Option String :=
  match activities with
  | [] => none
  | a :: _ => a.statusCode

/-- `pollSingleShipment` from `trackingPoller.js`, given the carrier's
activity list for the shipment: every activity is recorded through
`insertEvent`, then the most recent activity is mapped through `mapUpsStatus`
and the transition (status write, `deliveredAt` stamp, Bubble notification) is
applied only when the mapped status is non-null and differs from the current
persisted status. -/
def pollSingleShipment (store : List EventRow) (sh : Shipment)
    (activities : List Activity) : PollResult :=
  let store' := activities.foldl (fun st a => (insertEvent st (activityToEvent sh a)).1) store
  let newStatus := mapUpsStatus (latestStatusType activities) (latestStatusCode activities)
  match newStatus with
  | some s =>
    if s ≠ sh.status then
      { store := store'
        shipmentStatus := s
        statusWritten := some s
        deliveredStamped := s = "delivered"
        notifyInvoked := true }
    else
      { store := store', shipmentStatus := sh.status
        statusWritten := none, deliveredStamped := false, notifyInvoked := false }
  | none =>
    { store := store', shipmentStatus := sh.status
      statusWritten := none, deliveredStamped := false, notifyInvoked := false }

/-! ## Rate aggregation (`POST /api/ups/quote` in `src/routes/ups.js`) -/

/-- The JavaScript-object accumulation pattern
`if (!m[k]) m[k] = 0; m[k] += v` on an insertion-ordered map, modelled as an
association list. -/
def upsertAdd (m : List (String × ℚ)) (k : String) (v : ℚ) : List (String × ℚ) :=
  match m with
  | [] => [(k, v)]
  | (k', v') :: rest => if k' = k then (k', v' + v) :: rest else (k', v') :: upsertAdd rest k v

/-- Reading a service's accumulated cost out of an association-list map
(`0` when the service is absent). -/
def lookupCost (k : String) : List (String × ℚ) → ℚ
  | [] => 0
  | (k', v) :: rest => if k' = k then v else lookupCost k rest

/-- The total cost attached to key `k` across all entries of a rate list. -/
def sumKey (k : String) : List (String × ℚ) → ℚ
  | [] => 0
  | (k', v) :: rest => (if k' = k then v else 0) + sumKey k rest

/-- The rounding pass `m[k].cost = Math.round(m[k].cost * 100) / 100` applied
to every key of an accumulated map. -/
def mapValuesRound2 (m : List (String × ℚ)) : List (String × ℚ) :=
  m.map (fun p => (p.1, round2 p.2))

/-- One entry of the per-address `boxRates` array: either the error marker
pushed when `RateResponse.RatedShipment` is missing, or the parsed
`serviceName ↦ cost` map for the box. -/
inductive BoxRateEntry where
  | err : BoxRateEntry
  | ok (rates : List (String × ℚ)) : BoxRateEntry
deriving DecidableEq, Repr

/-- The per-box loop of the quote flow: a `none` rate-lookup result is
recorded as the error entry (`{ box, error: 'No rates returned' }`), a
successful one as its rates map. -/
def buildBoxRates (lookups : List (Option (List (String × ℚ)))) : List BoxRateEntry :=
  lookups.map (fun r =>
    match r with
    | none => BoxRateEntry.err
    | some rates => BoxRateEntry.ok rates)

/-- The `if (br.rates) for (...) addressRates[service] += cost` accumulation:
error entries contribute nothing. -/
def addEntryRates (m : List (String × ℚ)) (e : BoxRateEntry) : List (String × ℚ) :=
  match e with
  | BoxRateEntry.err => m
  | BoxRateEntry.ok rates => rates.foldl (fun m' p => upsertAdd m' p.1 p.2) m

/-- The per-address aggregation of the quote flow: sum each service's cost
across the address's box rate entries, then round every total to 2 decimals. -/
def aggregateAddressRates (entries : List BoxRateEntry) : List (String × ℚ) :=
  mapValuesRound2 (entries.foldl addEntryRates [])

/-- The grand-total aggregation: sum the already-rounded per-address
per-service totals across addresses, then round each grand total to
2 decimals. -/
def grandTotals (perAddress : List (List (String × ℚ))) : List (String × ℚ) :=
  mapValuesRound2
    (perAddress.foldl (fun m ar => ar.foldl (fun m' p => upsertAdd m' p.1 p.2) m) [])

/-- `totalsByService` of the quote response as a function of each address's
per-box rate-lookup results. -/
def quoteTotalsByService (addrBoxLookups : List (List (Option (List (String × ℚ))))) :
    List (String × ℚ) :=
  grandTotals (addrBoxLookups.map (fun ls => aggregateAddressRates (buildBoxRates ls)))

/-! ## Quote and ship request flows (`POST /api/ups/quote`, `POST /api/ups/ship`)

The regex parsers `parseFilterSize` and `parseAddress` are passed in as
functions (their string-matching internals are external to the control flow
being verified); the rate lookup / shipment creation network calls are passed
in likewise, with `none` standing for an unsuccessful response. -/

/-- The parsed address components returned by `parseAddress`. -/
structure Address where
  street : String
  city : String
  state : String
  postalCode : String
deriving DecidableEq, Repr

/-- `addressGroups[addr].push(size)`: group values under a raw address-string
key, keeping object-insertion order. -/
def pushGroup (groups : List (String × List Filter)) (a : String) (f : Filter) :
    List (String × List Filter) :=
  match groups with
  | [] => [(a, [f])]
  | (a', fs) :: rest =>
    if a' = a then (a', fs ++ [f]) :: rest else (a', fs) :: pushGroup rest a f

/-- Outcome of the quote flow's grouping loop: the first size token that fails
`parseFilterSize` aborts the request with `Invalid filter size at position i`. -/
inductive GroupOutcome where
  | invalidSize (idx : ℕ) (tok : String) : GroupOutcome
  | ok (groups : List (String × List Filter)) : GroupOutcome
deriving DecidableEq, Repr

/-- The quote flow's `for (let i = 0; ...)` grouping loop. -/
def groupPairsAux (parseSize : String → Option Filter) :
    List (String × String) → ℕ → List (String × List Filter) → GroupOutcome
  | [], _, groups => GroupOutcome.ok groups
  | (a, sz) :: rest, i, groups =>
    match parseSize sz with
    | none => GroupOutcome.invalidSize i sz
    | some f => groupPairsAux parseSize rest (i + 1) (pushGroup groups a f)

/-- Grouping of the `(address, size)` input pairs in the quote flow. -/
def groupPairs (parseSize : String → Option Filter) (pairs : List (String × String)) :
    GroupOutcome :=
  groupPairsAux parseSize pairs 0 []

/-- One element of the quote response's `shipments` array. -/
structure AddressQuote where
  address : Address
  boxes : List BoxOut
  boxEntries : List BoxRateEntry
  rates : List (String × ℚ)
deriving DecidableEq, Repr

/-- Outcome of a quote request: a 400 rejection for the first unparsable size
token or address string, or the processed per-address results together with
`totalsByService`. -/
inductive QuoteOutcome where
  | invalidSize (idx : ℕ) (tok : String) : QuoteOutcome
  | invalidAddress (raw : String) : QuoteOutcome
  | ok (shipments : List AddressQuote) (totalsByService : List (String × ℚ)) : QuoteOutcome
deriving DecidableEq, Repr

/-- The quote flow's `for (const [addressStr, filterSizes] of ...)` loop.
The second component counts the rate lookups performed so far (one per box);
an unparsable address rejects the whole request at that point, discarding the
accumulated results but not undoing lookups already made. -/
def quoteAddressesAux (parseAddr : String → Option Address)
    (rateLookup : Address → BoxOut → Option (List (String × ℚ))) :
    List (String × List Filter) → List AddressQuote → ℕ → QuoteOutcome × ℕ
  | [], acc, n => (QuoteOutcome.ok acc (grandTotals (acc.map AddressQuote.rates)), n)
  | (raw, fs) :: rest, acc, n =>
    match parseAddr raw with
    | none => (QuoteOutcome.invalidAddress raw, n)
    | some addr =>
      let boxes := packFiltersIntoBoxes fs
      let entries := buildBoxRates (boxes.map (rateLookup addr))
      let rates := aggregateAddressRates entries
      quoteAddressesAux parseAddr rateLookup rest
        (acc ++ [{ address := addr, boxes := boxes, boxEntries := entries, rates := rates }])
        (n + boxes.length)

/-- `POST /api/ups/quote` after input normalization: group the
`(address, size)` pairs (failing fast on a bad size token), then pack, rate
and aggregate each address group in order. -/
def quoteFlow (parseSize : String → Option Filter) (parseAddr : String → Option Address)
    (rateLookup : Address → BoxOut → Option (List (String × ℚ)))
    (pairs : List (String × String)) : QuoteOutcome × ℕ :=
  match groupPairs parseSize pairs with
  | GroupOutcome.invalidSize i tok => (QuoteOutcome.invalidSize i tok, 0)
  | GroupOutcome.ok groups => quoteAddressesAux parseAddr rateLookup groups [] 0

/-- One element of the ship response's `addresses` array: the error entry
pushed on a failed `parseAddress` (with `continue`), the error entry for an
address whose size tokens all fail to parse, or the created shipments with the
address's rounded charge total. -/
inductive ShipEntry where
  | addrError (raw : String) : ShipEntry
  | noValidSizes (raw : String) : ShipEntry
  | ok (addr : Address) (boxShipments : List (Option ℚ)) (charges : ℚ) : ShipEntry
deriving DecidableEq, Repr

/-- One iteration of the ship flow's per-address loop: parse the address
(recording an error entry on failure), drop unparsable sizes, pack, create a
shipment per box (`none` = creation failure, contributing `0` to charges), and
round the address's charge total to 2 decimals. -/
def shipAddress (parseAddr : String → Option Address) (parseSize : String → Option Filter)
    (create : Address → BoxOut → Option ℚ) (raw : String) (szs : List String) : ShipEntry :=
  match parseAddr raw with
  | none => ShipEntry.addrError raw
  | some addr =>
    let filterSizes := (szs.map parseSize).reduceOption
    if filterSizes.isEmpty then ShipEntry.noValidSizes raw
    else
      let boxes := packFiltersIntoBoxes filterSizes
      let results := boxes.map (create addr)
      ShipEntry.ok addr results (round2 ((results.map (fun r => r.getD 0)).sum))

/-- The `POST /api/ups/ship` per-address loop over the grouped filters: every
address group yields its own entry and a failure in one group does not stop
the others. -/
def shipFlow (parseAddr : String → Option Address) (parseSize : String → Option Filter)
    (create : Address → BoxOut → Option ℚ)
    (groups : List (String × List String)) : List ShipEntry :=
  groups.map (fun g => shipAddress parseAddr parseSize create g.1 g.2)

/-! ## Claim C5 — carrier-status mapping table -/

/-- C5 counterexample: the claim says every *present* status type outside the
table maps to `in_transit`, but the JavaScript falsy guard sends the present
empty-string status type to `null` (no transition). -/
theorem mapUpsStatus_empty_present_counterexample :
    mapUpsStatus (some "") none = none ∧ mapUpsStatus (some "") none ≠ some "in_transit" := by
  decide

/-- C5 (amended): `mapUpsStatus` returns `delivered` for `D`, `in_transit`
for `I` and `P`, `created` for `M`, `exception` for `X`, `returned` for `RS`,
`out_for_delivery` for `O`, `in_transit` for any other present non-empty
status type, and no transition when the status type is absent — or the empty
string, which JavaScript's falsy test treats like an absent one. -/
theorem mapUpsStatus_table (c : Option String) :
    mapUpsStatus none c = none
    ∧ mapUpsStatus (some "") c = none
    ∧ mapUpsStatus (some "D") c = some "delivered"
    ∧ mapUpsStatus (some "I") c = some "in_transit"
    ∧ mapUpsStatus (some "P") c = some "in_transit"
    ∧ mapUpsStatus (some "M") c = some "created"
    ∧ mapUpsStatus (some "X") c = some "exception"
    ∧ mapUpsStatus (some "RS") c = some "returned"
    ∧ mapUpsStatus (some "O") c = some "out_for_delivery"
    ∧ ∀ t : String, t ∉ (["", "D", "I", "P", "M", "X", "RS", "O"] : List String) →
        mapUpsStatus (some t) c = some "in_transit" := by
  refine ⟨rfl, rfl, rfl, rfl, rfl, rfl, rfl, rfl, rfl, ?_⟩
  intro t ht
  simp only [List.mem_cons, List.not_mem_nil, or_false, not_or] at ht
  obtain ⟨h0, h1, h2, h3, h4, h5, h6, h7⟩ := ht
  simp [mapUpsStatus, h0, h1, h2, h3, h4, h5, h6, h7]

/-- C5 witness: a status type outside the table maps to `in_transit`. -/
theorem mapUpsStatus_table_witness : mapUpsStatus (some "NA") none = some "in_transit" :=
  (mapUpsStatus_table none).2.2.2.2.2.2.2.2.2 "NA" (by decide)

/-! ## Claim C3 — transition applied iff mapped status differs; idempotence -/

/-- C3: the status write and the workflow notification happen exactly when the
status mapped from the most recent activity is non-null and differs from the
shipment's current status; re-running the poll on the updated shipment with
unchanged carrier data writes no status and sends no notification. -/
theorem pollSingleShipment_transition_iff (store : List EventRow) (sh : Shipment)
    (acts : List Activity) :
    ((pollSingleShipment store sh acts).statusWritten ≠ none ↔
      ∃ s, mapUpsStatus (latestStatusType acts) (latestStatusCode acts) = some s ∧ s ≠ sh.status)
    ∧ ((pollSingleShipment store sh acts).notifyInvoked = true ↔
      ∃ s, mapUpsStatus (latestStatusType acts) (latestStatusCode acts) = some s ∧ s ≠ sh.status)
    ∧ (pollSingleShipment (pollSingleShipment store sh acts).store
        { sh with status := (pollSingleShipment store sh acts).shipmentStatus }
        acts).statusWritten = none
    ∧ (pollSingleShipment (pollSingleShipment store sh acts).store
        { sh with status := (pollSingleShipment store sh acts).shipmentStatus }
        acts).notifyInvoked = false := by
  cases h : mapUpsStatus (latestStatusType acts) (latestStatusCode acts) with
  | none => simp [pollSingleShipment, h]
  | some s =>
    by_cases hs : s = sh.status
    · subst hs
      simp [pollSingleShipment, h]
    · simp [pollSingleShipment, h, hs]

/-! ## Claim C10 — null activity timestamp defeats the dedup pre-check -/

/-- C10: when the carrier activity has no date, `activityTimestamp` is SQL
NULL; `activity_timestamp = $2` never holds against NULL, so the pre-check
matches nothing and `insertEvent` appends a fresh row on every call. -/
theorem insertEvent_null_timestamp_always_inserts (store : List EventRow) (ev : EventRow)
    (h : ev.activityTimestamp = none) :
    insertEvent store ev = (store ++ [storedRow ev], some (storedRow ev)) := by
  unfold insertEvent
  have hany : (store.any fun r =>
      matchesTriple r ev.trackingNumber ev.activityTimestamp ev.statusCode) = false := by
    rw [List.any_eq_false]
    intro r _
    simp only [matchesTriple, h, sqlEqOpt]
    cases r.activityTimestamp <;> simp
  simp [hany]

/-- C10 witness: a concrete date-less event is inserted twice by two calls. -/
theorem insertEvent_null_timestamp_always_inserts_witness :
    insertEvent []
        (⟨1, "1Z999", some "08", some "D", none, none, none, none, none⟩ : EventRow)
      = ([⟨1, "1Z999", some "08", some "D", none, none, none, none, none⟩],
         some ⟨1, "1Z999", some "08", some "D", none, none, none, none, none⟩) :=
  insertEvent_null_timestamp_always_inserts [] _ rfl

/-! ## Claim C4 — event dedup by the (trackingNumber, timestamp, statusCode) triple -/

/-- C4 counterexample: for an event whose `activityTimestamp` is NULL the
claim fails — the second identical call does not return `null` and the store
grows to two rows. -/
theorem insertEvent_dedup_counterexample :
    (insertEvent
        (insertEvent [] (⟨1, "1Z1", some "08", some "D", none, none, none, none, none⟩ :
          EventRow)).1
        (⟨1, "1Z1", some "08", some "D", none, none, none, none, none⟩ : EventRow)).2 ≠ none
    ∧ (insertEvent
        (insertEvent [] (⟨1, "1Z1", some "08", some "D", none, none, none, none, none⟩ :
          EventRow)).1
        (⟨1, "1Z1", some "08", some "D", none, none, none, none, none⟩ : EventRow)).1.length
      = 2 := by
  decide

/-- C4 (amended): for events whose `activityTimestamp` is non-null and whose
`statusCode` is non-null and non-empty, inserting the same triple twice keeps
exactly one row: the second call's pre-check finds the stored row, suppresses
the insert, returns `null` and leaves the store unchanged. -/
theorem insertEvent_dedup (store : List EventRow) (ev : EventRow) (t c : String)
    (ht : ev.activityTimestamp = some t) (hc : ev.statusCode = some c) (hc' : c ≠ "") :
    insertEvent (insertEvent store ev).1 ev = ((insertEvent store ev).1, none) := by
  have hmatch : matchesTriple (storedRow ev) ev.trackingNumber ev.activityTimestamp
      ev.statusCode = true := by
    simp [matchesTriple, storedRow, sqlEqOpt, ht, hc, orNull, hc']
  unfold insertEvent
  by_cases h : (store.any fun r =>
      matchesTriple r ev.trackingNumber ev.activityTimestamp ev.statusCode) = true
  · simp [h]
  · simp only [h]
    simp only [Bool.not_eq_true] at h
    simp [h, List.any_append, hmatch]

/-- C4 witness: a concrete event with a timestamp is stored once and the
second call is suppressed. -/
theorem insertEvent_dedup_witness :
    insertEvent
        (insertEvent []
          (⟨1, "1Z2", some "08", some "D", none, none, none, none,
            some "2024-01-15T10:00:00Z"⟩ : EventRow)).1
        (⟨1, "1Z2", some "08", some "D", none, none, none, none,
          some "2024-01-15T10:00:00Z"⟩ : EventRow)
      = ((insertEvent []
          (⟨1, "1Z2", some "08", some "D", none, none, none, none,
            some "2024-01-15T10:00:00Z"⟩ : EventRow)).1, none) :=
  insertEvent_dedup [] _ "2024-01-15T10:00:00Z" "08" rfl rfl (by decide)

/-! ## Packer helper lemmas -/

/-- A successful first-fit placement permutes the flattened box contents into
the placed filter plus the previous contents. -/
theorem tryPlace_flatMap_perm (f : Filter) :
    ∀ (boxes bs : List PackBox), tryPlace f boxes = some bs →
      bs.flatMap PackBox.filters ~ f :: boxes.flatMap PackBox.filters := by
  intro boxes
  induction boxes with
  | nil => intro bs h; simp [tryPlace] at h
  | cons b rest ih =>
    intro bs h
    rw [tryPlace] at h
    by_cases hfit : b.currentDepth + f.depth ≤ MAX_DEPTH
    · rw [if_pos hfit] at h
      cases h
      simp only [List.flatMap_cons, placeInBox, List.append_assoc]
      exact List.perm_middle
    · rw [if_neg hfit] at h
      cases hrec : tryPlace f rest with
      | none => rw [hrec] at h; cases h
      | some bs' =>
        rw [hrec] at h
        cases h
        calc (b :: bs').flatMap PackBox.filters
            = b.filters ++ bs'.flatMap PackBox.filters := by simp [List.flatMap_cons]
          _ ~ b.filters ++ (f :: rest.flatMap PackBox.filters) :=
              (ih bs' hrec).append_left b.filters
          _ ~ f :: (b.filters ++ rest.flatMap PackBox.filters) := List.perm_middle
          _ = f :: (b :: rest).flatMap PackBox.filters := by simp [List.flatMap_cons]

/-- One packing step adds exactly the processed filter to the flattened
contents, up to permutation. -/
theorem packStep_flatMap_perm (boxes : List PackBox) (f : Filter) :
    (packStep boxes f).flatMap PackBox.filters ~ f :: boxes.flatMap PackBox.filters := by
  unfold packStep
  cases h : tryPlace f boxes with
  | some bs => exact tryPlace_flatMap_perm f boxes bs h
  | none =>
    simp only [List.flatMap_append, List.flatMap_cons, newBox, List.flatMap_nil,
      List.append_nil]
    exact List.perm_append_singleton f _

/-- The packing fold only ever adds the processed filters to the flattened
contents. -/
theorem foldl_packStep_flatMap_perm :
    ∀ (l : List Filter) (boxes : List PackBox),
      (l.foldl packStep boxes).flatMap PackBox.filters ~
        l ++ boxes.flatMap PackBox.filters := by
  intro l
  induction l with
  | nil => intro boxes; simp
  | cons f rest ih =>
    intro boxes
    rw [List.foldl_cons]
    calc (rest.foldl packStep (packStep boxes f)).flatMap PackBox.filters
        ~ rest ++ (packStep boxes f).flatMap PackBox.filters := ih _
      _ ~ rest ++ (f :: boxes.flatMap PackBox.filters) :=
          (packStep_flatMap_perm boxes f).append_left rest
      _ ~ f :: (rest ++ boxes.flatMap PackBox.filters) := List.perm_middle

/-- Flattening the packed boxes recovers the input filters up to
permutation. -/
theorem pack_flatten_perm (l : List Filter) :
    (packFiltersIntoBoxesRaw l).flatMap PackBox.filters ~ l := by
  unfold packFiltersIntoBoxesRaw
  calc ((sortByDepthDesc l).foldl packStep []).flatMap PackBox.filters
      ~ sortByDepthDesc l ++ ([] : List PackBox).flatMap PackBox.filters :=
        foldl_packStep_flatMap_perm _ []
    _ = sortByDepthDesc l := by simp
    _ ~ l := l.perm_insertionSort byDepthDesc

/-- The box invariant maintained by the packing loop: a box either respects
the depth cap or is still the singleton box it was created as, with
`currentDepth` equal to its single filter's depth. -/
theorem tryPlace_invariant (f : Filter) :
    ∀ (boxes bs : List PackBox), tryPlace f boxes = some bs →
      (∀ b ∈ boxes, b.currentDepth ≤ MAX_DEPTH ∨
        ∃ g, b.filters = [g] ∧ b.currentDepth = g.depth) →
      ∀ b ∈ bs, b.currentDepth ≤ MAX_DEPTH ∨
        ∃ g, b.filters = [g] ∧ b.currentDepth = g.depth := by
  intro boxes
  induction boxes with
  | nil => intro bs h; simp [tryPlace] at h
  | cons b rest ih =>
    intro bs h hinv
    rw [tryPlace] at h
    by_cases hfit : b.currentDepth + f.depth ≤ MAX_DEPTH
    · rw [if_pos hfit] at h
      cases h
      intro b' hb'
      rcases List.mem_cons.mp hb' with hb' | hb'
      · subst hb'
        exact Or.inl hfit
      · exact hinv b' (List.mem_cons_of_mem _ hb')
    · rw [if_neg hfit] at h
      cases hrec : tryPlace f rest with
      | none => rw [hrec] at h; cases h
      | some bs' =>
        rw [hrec] at h
        cases h
        intro b' hb'
        rcases List.mem_cons.mp hb' with hb' | hb'
        · subst hb'
          exact hinv b' (List.mem_cons_self _ _)
        · exact ih bs' hrec (fun x hx => hinv x (List.mem_cons_of_mem _ hx)) b' hb'

/-- The box invariant is preserved by one packing step. -/
theorem packStep_invariant (boxes : List PackBox) (f : Filter)
    (hinv : ∀ b ∈ boxes, b.currentDepth ≤ MAX_DEPTH ∨
      ∃ g, b.filters = [g] ∧ b.currentDepth = g.depth) :
    ∀ b ∈ packStep boxes f, b.currentDepth ≤ MAX_DEPTH ∨
      ∃ g, b.filters = [g] ∧ b.currentDepth = g.depth := by
  unfold packStep
  cases h : tryPlace f boxes with
  | some bs => exact tryPlace_invariant f boxes bs h hinv
  | none =>
    intro b hb
    rcases List.mem_append.mp hb with hb | hb
    · exact hinv b hb
    · rcases List.mem_singleton.mp hb with rfl
      exact Or.inr ⟨f, rfl, rfl⟩

/-- The box invariant holds for every box produced by the packing fold. -/
theorem foldl_packStep_invariant :
    ∀ (l : List Filter) (boxes : List PackBox),
      (∀ b ∈ boxes, b.currentDepth ≤ MAX_DEPTH ∨
        ∃ g, b.filters = [g] ∧ b.currentDepth = g.depth) →
      ∀ b ∈ l.foldl packStep boxes, b.currentDepth ≤ MAX_DEPTH ∨
        ∃ g, b.filters = [g] ∧ b.currentDepth = g.depth := by
  intro l
  induction l with
  | nil => intro boxes hinv; simpa using hinv
  | cons f rest ih =>
    intro boxes hinv
    rw [List.foldl_cons]
    exact ih _ (packStep_invariant boxes f hinv)

/-! ## Claim C1 — depth-cap invariant of the packer -/

/-- C1: when every item respects the 4-inch depth cap, so does every packed
box; for arbitrary input, a box exceeding the cap holds exactly one filter,
itself deeper than the cap; and every input filter (oversized or not) is
assigned to some box rather than rejected. -/
theorem packFiltersIntoBoxes_depth_invariant (l : List Filter) :
    ((∀ f ∈ l, f.depth ≤ MAX_DEPTH) →
      ∀ b ∈ packFiltersIntoBoxesRaw l, b.currentDepth ≤ MAX_DEPTH)
    ∧ (∀ b ∈ packFiltersIntoBoxesRaw l, MAX_DEPTH < b.currentDepth →
        ∃ f, b.filters = [f] ∧ MAX_DEPTH < f.depth)
    ∧ (∀ f ∈ l, ∃ b ∈ packFiltersIntoBoxesRaw l, f ∈ b.filters)
    ∧ ((∀ f ∈ l, f.depth ≤ MAX_DEPTH) →
        ∀ bo ∈ packFiltersIntoBoxes l, bo.height ≤ MAX_DEPTH) := by
  have hgood : ∀ b ∈ packFiltersIntoBoxesRaw l, b.currentDepth ≤ MAX_DEPTH ∨
      ∃ g, b.filters = [g] ∧ b.currentDepth = g.depth :=
    foldl_packStep_invariant (sortByDepthDesc l) [] (by simp)
  have hpart2 : ∀ b ∈ packFiltersIntoBoxesRaw l, MAX_DEPTH < b.currentDepth →
      ∃ f, b.filters = [f] ∧ MAX_DEPTH < f.depth := by
    intro b hb hover
    rcases hgood b hb with hle | ⟨g, hfil, hcd⟩
    · exact absurd hover (not_lt.mpr hle)
    · exact ⟨g, hfil, hcd ▸ hover⟩
  have hpart1 : (∀ f ∈ l, f.depth ≤ MAX_DEPTH) →
      ∀ b ∈ packFiltersIntoBoxesRaw l, b.currentDepth ≤ MAX_DEPTH := by
    intro hall b hb
    by_contra hgt
    rcases hpart2 b hb (lt_of_not_le hgt) with ⟨g, hfil, hgd⟩
    have hg : g ∈ (packFiltersIntoBoxesRaw l).flatMap PackBox.filters :=
      List.mem_flatMap_of_mem hb (by rw [hfil]; exact List.mem_singleton_self g)
    have : g ∈ l := (pack_flatten_perm l).mem_iff.mp hg
    exact absurd (hall g this) (not_le.mpr hgd)
  refine ⟨hpart1, hpart2, ?_, ?_⟩
  · intro f hf
    have : f ∈ (packFiltersIntoBoxesRaw l).flatMap PackBox.filters :=
      (pack_flatten_perm l).mem_iff.mpr hf
    exact List.mem_flatMap.mp this
  · intro hall bo hbo
    rcases List.mem_map.mp hbo with ⟨b, hb, rfl⟩
    exact hpart1 hall b hb

/-- C1 witness: a cap-respecting singleton input yields a cap-respecting
box. -/
theorem packFiltersIntoBoxes_depth_invariant_witness :
    (⟨[⟨16, 20, 1⟩], 16, 20, 1, 36/25⟩ : PackBox).currentDepth ≤ MAX_DEPTH :=
  (packFiltersIntoBoxes_depth_invariant [⟨16, 20, 1⟩]).1
    (by intro f hf; rcases List.mem_singleton.mp hf with rfl; with_unfolding_all decide)
    _ (by with_unfolding_all decide)

/-! ## Claim C7 — packing preserves the multiset of items -/

/-- C7: flattening the packed boxes' item lists recovers exactly the original
multiset of filters — no filter is lost, duplicated, or placed twice. -/
theorem packFiltersIntoBoxes_roundtrip (l : List Filter) :
    ((packFiltersIntoBoxesRaw l).flatMap PackBox.filters : Multiset Filter) =
      (l : Multiset Filter) :=
  Multiset.coe_eq_coe.mpr (pack_flatten_perm l)

/-! ## Stability of the depth sort -/

/-- Inserting into a partial sort preserves the subsequence of any fixed
depth: the inserted filter lands after every already-placed filter of equal
depth. -/
theorem orderedInsert_filter_depth (d : ℚ) (a : Filter) :
    ∀ l : List Filter,
      (l.orderedInsert byDepthDesc a).filter (fun f => decide (f.depth = d)) =
        if a.depth = d then a :: l.filter (fun f => decide (f.depth = d))
        else l.filter (fun f => decide (f.depth = d)) := by
  intro l
  induction l with
  | nil =>
    simp only [List.orderedInsert, List.filter]
    by_cases h : a.depth = d <;> simp [h]
  | cons b l ih =>
    rw [List.orderedInsert]
    by_cases hab : byDepthDesc a b
    · rw [if_pos hab]
      by_cases ha : a.depth = d <;> simp [List.filter_cons, ha]
    · rw [if_neg hab]
      have hlt : a.depth < b.depth := lt_of_not_le hab
      by_cases ha : a.depth = d
      · have hb : ¬ b.depth = d := by
          subst ha
          exact ne_of_gt hlt
        simp [List.filter_cons, hb, ih, ha]
      · simp [List.filter_cons, ih, ha]

/-- The insertion sort by descending depth is stable: it preserves the
original relative order of the filters at each fixed depth. -/
theorem sortByDepthDesc_stable (d : ℚ) :
    ∀ l : List Filter,
      (sortByDepthDesc l).filter (fun f => decide (f.depth = d)) =
        l.filter (fun f => decide (f.depth = d)) := by
  intro l
  induction l with
  | nil => rfl
  | cons a l ih =>
    simp only [sortByDepthDesc, List.insertionSort] at ih ⊢
    rw [orderedInsert_filter_depth, ih]
    by_cases ha : a.depth = d
    · simp [List.filter_cons, ha]
    · simp [List.filter_cons, ha]

/-! ## Claim C6 — best-fit-decreasing packing and the 1-1-3 scenario -/

/-- C6: the packer sorts by depth descending (a stable sort — permutation,
sortedness and depth-level order preservation are stated), first-fits each
filter, and on the concrete `16x20x1, 16x20x1, 16x20x3` input returns two
boxes: one with 2 filters and height 4, one with 1 filter and height 1. -/
theorem packFiltersIntoBoxes_scenario (d : ℚ) (l : List Filter) :
    List.Sorted byDepthDesc (sortByDepthDesc l)
    ∧ sortByDepthDesc l ~ l
    ∧ (sortByDepthDesc l).filter (fun f => decide (f.depth = d)) =
        l.filter (fun f => decide (f.depth = d))
    ∧ packFiltersIntoBoxes [⟨16, 20, 1⟩, ⟨16, 20, 1⟩, ⟨16, 20, 3⟩] =
        [⟨16, 20, 4, 2, 37/10⟩, ⟨16, 20, 1, 1, 7/5⟩] :=
  ⟨List.sorted_insertionSort byDepthDesc l,
   l.perm_insertionSort byDepthDesc,
   sortByDepthDesc_stable d l,
   by with_unfolding_all decide⟩

/-! ## Aggregation helper lemmas -/

/-- `round2` fixes `0`. -/
theorem round2_zero : round2 0 = 0 := by with_unfolding_all decide

/-- Reading a key after one `upsertAdd`: the stored cost grows by the added
value exactly on the upserted key. -/
theorem lookupCost_upsertAdd (k k' : String) (v : ℚ) :
    ∀ m : List (String × ℚ),
      lookupCost k (upsertAdd m k' v) = lookupCost k m + (if k' = k then v else 0) := by
  intro m
  induction m with
  | nil =>
    by_cases h : k' = k <;> simp [upsertAdd, lookupCost, h]
  | cons p rest ih =>
    obtain ⟨a, b⟩ := p
    by_cases h1 : a = k'
    · subst h1
      by_cases h2 : a = k
      · subst h2
        simp [upsertAdd, lookupCost]
      · simp [upsertAdd, lookupCost, h2]
    · by_cases h2 : a = k
      · subst h2
        simp [upsertAdd, lookupCost, h1, Ne.symm h1]
      · simp [upsertAdd, lookupCost, h1, h2, ih]

/-- Folding a rate list into the accumulation map adds each key's total. -/
theorem lookupCost_foldl_upsertAdd (k : String) :
    ∀ (l : List (String × ℚ)) (m : List (String × ℚ)),
      lookupCost k (l.foldl (fun m' p => upsertAdd m' p.1 p.2) m) =
        lookupCost k m + sumKey k l := by
  intro l
  induction l with
  | nil => intro m; simp [sumKey]
  | cons p rest ih =>
    intro m
    rw [List.foldl_cons, ih, lookupCost_upsertAdd]
    show lookupCost k m + (if p.1 = k then p.2 else 0) + sumKey k rest = _
    rw [add_assoc]
    rfl

/-- Folding box rate entries into the accumulation map adds each entry's
contribution; error entries contribute nothing. -/
theorem lookupCost_foldl_addEntryRates (k : String) :
    ∀ (es : List BoxRateEntry) (m : List (String × ℚ)),
      lookupCost k (es.foldl addEntryRates m) =
        lookupCost k m + (es.map (fun e =>
          match e with
          | BoxRateEntry.err => 0
          | BoxRateEntry.ok rates => sumKey k rates)).sum := by
  intro es
  induction es with
  | nil => intro m; simp
  | cons e rest ih =>
    intro m
    rw [List.foldl_cons, ih]
    cases e with
    | err => simp [addEntryRates]
    | ok rates =>
      simp only [addEntryRates, List.map_cons, List.sum_cons]
      rw [lookupCost_foldl_upsertAdd, add_assoc]

/-- Reading a key through the rounding pass rounds that key's total
(an absent key reads `0` on both sides since `round2 0 = 0`). -/
theorem lookupCost_mapValuesRound2 (k : String) :
    ∀ m : List (String × ℚ), lookupCost k (mapValuesRound2 m) = round2 (lookupCost k m) := by
  intro m
  induction m with
  | nil => simp [mapValuesRound2, lookupCost, round2_zero]
  | cons p rest ih =>
    obtain ⟨a, b⟩ := p
    by_cases h : a = k
    · simp [mapValuesRound2, lookupCost, h]
    · simp only [mapValuesRound2, List.map_cons, lookupCost, if_neg h]
      exact ih

/-- `upsertAdd` leaves the key sequence unchanged, or appends the new key. -/
theorem keys_upsertAdd (k : String) (v : ℚ) :
    ∀ m : List (String × ℚ),
      (upsertAdd m k v).map Prod.fst =
        if k ∈ m.map Prod.fst then m.map Prod.fst else m.map Prod.fst ++ [k] := by
  intro m
  induction m with
  | nil => simp [upsertAdd]
  | cons p rest ih =>
    obtain ⟨a, b⟩ := p
    by_cases h : a = k
    · subst h
      simp [upsertAdd]
    · simp only [upsertAdd, if_neg h, List.map_cons, ih, List.mem_cons]
      have h' : ¬ k = a := fun hh => h hh.symm
      by_cases h2 : k ∈ rest.map Prod.fst <;> simp [h2, h']

/-- `upsertAdd` preserves key distinctness. -/
theorem nodupKeys_upsertAdd (k : String) (v : ℚ) (m : List (String × ℚ))
    (h : (m.map Prod.fst).Nodup) : ((upsertAdd m k v).map Prod.fst).Nodup := by
  rw [keys_upsertAdd]
  by_cases hm : k ∈ m.map Prod.fst
  · simpa [hm] using h
  · rw [if_neg hm]
    refine h.append (List.nodup_singleton k) ?_
    intro x hx hx'
    rcases List.mem_singleton.mp hx' with rfl
    exact hm hx

/-- Folding rate pairs preserves key distinctness of the accumulation map. -/
theorem nodupKeys_foldl_upsertAdd :
    ∀ (l : List (String × ℚ)) (m : List (String × ℚ)),
      (m.map Prod.fst).Nodup →
      ((l.foldl (fun m' p => upsertAdd m' p.1 p.2) m).map Prod.fst).Nodup := by
  intro l
  induction l with
  | nil => intro m h; simpa using h
  | cons p rest ih =>
    intro m h
    rw [List.foldl_cons]
    exact ih _ (nodupKeys_upsertAdd _ _ _ h)

/-- Folding box rate entries preserves key distinctness. -/
theorem nodupKeys_foldl_addEntryRates :
    ∀ (es : List BoxRateEntry) (m : List (String × ℚ)),
      (m.map Prod.fst).Nodup → ((es.foldl addEntryRates m).map Prod.fst).Nodup := by
  intro es
  induction es with
  | nil => intro m h; simpa using h
  | cons e rest ih =>
    intro m h
    rw [List.foldl_cons]
    cases e with
    | err => exact ih _ h
    | ok rates => exact ih _ (nodupKeys_foldl_upsertAdd rates m h)

/-- A key that never occurs contributes a zero total. -/
theorem sumKey_eq_zero_of_not_mem (k : String) :
    ∀ m : List (String × ℚ), k ∉ m.map Prod.fst → sumKey k m = 0 := by
  intro m
  induction m with
  | nil => intro _; rfl
  | cons p rest ih =>
    obtain ⟨a, b⟩ := p
    intro h
    simp only [List.map_cons, List.mem_cons, not_or] at h
    have h' : ¬ a = k := fun hh => h.1 hh.symm
    simp [sumKey, h', ih h.2]

/-- On a map with distinct keys, summing a key's occurrences and looking the
key up agree. -/
theorem sumKey_eq_lookupCost (k : String) :
    ∀ m : List (String × ℚ), (m.map Prod.fst).Nodup → sumKey k m = lookupCost k m := by
  intro m
  induction m with
  | nil => intro _; rfl
  | cons p rest ih =>
    obtain ⟨a, b⟩ := p
    intro h
    rw [List.map_cons, List.nodup_cons] at h
    by_cases ha : a = k
    · subst ha
      have : sumKey a rest = 0 := sumKey_eq_zero_of_not_mem a rest h.1
      simp [sumKey, lookupCost, this]
    · simp [sumKey, lookupCost, ha, ih h.2]

/-- The rounding pass leaves the key sequence unchanged. -/
theorem keys_mapValuesRound2 (m : List (String × ℚ)) :
    (mapValuesRound2 m).map Prod.fst = m.map Prod.fst := by
  simp [mapValuesRound2, List.map_map, Function.comp]

/-- The per-address aggregated map has distinct keys. -/
theorem nodupKeys_aggregateAddressRates (es : List BoxRateEntry) :
    ((aggregateAddressRates es).map Prod.fst).Nodup := by
  rw [aggregateAddressRates, keys_mapValuesRound2]
  exact nodupKeys_foldl_addEntryRates es [] (by simp)

/-- The per-box contributions of the built box-rate entries, keyed by a fixed
service. -/
theorem entrySums_buildBoxRates (k : String) :
    ∀ ls : List (Option (List (String × ℚ))),
      (buildBoxRates ls).map (fun e =>
          match e with
          | BoxRateEntry.err => 0
          | BoxRateEntry.ok rates => sumKey k rates) =
        ls.map (fun r => sumKey k (r.getD [])) := by
  intro ls
  induction ls with
  | nil => rfl
  | cons r rest ih =>
    cases r <;> simp [buildBoxRates, sumKey, ih] <;>
      simpa [buildBoxRates] using ih

/-- Folding already-aggregated per-address maps into the grand-total map adds
each address's keyed total. -/
theorem lookupCost_foldl_grand (k : String) :
    ∀ (P : List (List (String × ℚ))) (m : List (String × ℚ)),
      lookupCost k (P.foldl (fun m' ar => ar.foldl (fun m'' p => upsertAdd m'' p.1 p.2) m') m) =
        lookupCost k m + (P.map (sumKey k)).sum := by
  intro P
  induction P with
  | nil => intro m; simp
  | cons ar rest ih =>
    intro m
    rw [List.foldl_cons, ih, lookupCost_foldl_upsertAdd]
    simp [add_assoc]

/-! ## Claim C2 — two-stage rounding of service totals -/

/-- C2: each per-address per-service total is the 2-decimal rounding of the
raw sum of that service's per-box costs; each grand total is the 2-decimal
rounding of the sum of the already-rounded per-address totals; and the
concrete `12.34 + 7.66` Ground scenario yields exactly `20.00`. -/
theorem quote_two_stage_rounding (s : String)
    (ls : List (Option (List (String × ℚ))))
    (addrs : List (List (Option (List (String × ℚ))))) :
    lookupCost s (aggregateAddressRates (buildBoxRates ls)) =
      round2 ((ls.map (fun r => sumKey s (r.getD []))).sum)
    ∧ lookupCost s (quoteTotalsByService addrs) =
      round2 ((addrs.map (fun ls' =>
        lookupCost s (aggregateAddressRates (buildBoxRates ls')))).sum)
    ∧ quoteTotalsByService [[some [("Ground", 617/50)]], [some [("Ground", 383/50)]]] =
      [("Ground", 20)] := by
  refine ⟨?_, ?_, by with_unfolding_all decide⟩
  · rw [aggregateAddressRates, lookupCost_mapValuesRound2, lookupCost_foldl_addEntryRates,
      entrySums_buildBoxRates]
    simp [lookupCost]
  · rw [quoteTotalsByService, grandTotals, lookupCost_mapValuesRound2, lookupCost_foldl_grand]
    simp only [lookupCost, zero_add, List.map_map]
    congr 2
    refine List.map_congr_left ?_
    intro ls' _
    exact sumKey_eq_lookupCost s _ (nodupKeys_aggregateAddressRates _)

/-! ## Claim C8 — rate-lookup failure is per-box, not fatal -/

/-- C8: a box whose rate lookup returns no rates is recorded as an error
entry (exactly the `none` lookups become error markers, in place), contributes
nothing to the per-address aggregation, and — being dropped from the address's
rates — to no grand total either; the surrounding boxes and addresses are
aggregated as if the failed box were absent. -/
theorem boxRates_failure_isolated
    (l₁ l₂ : List (Option (List (String × ℚ))))
    (A₁ A₂ : List (List (Option (List (String × ℚ)))))
    (ls : List (Option (List (String × ℚ)))) :
    aggregateAddressRates (buildBoxRates (l₁ ++ none :: l₂)) =
      aggregateAddressRates (buildBoxRates (l₁ ++ l₂))
    ∧ quoteTotalsByService (A₁ ++ (l₁ ++ none :: l₂) :: A₂) =
      quoteTotalsByService (A₁ ++ (l₁ ++ l₂) :: A₂)
    ∧ List.Forall₂ (fun (e : BoxRateEntry) (r : Option (List (String × ℚ))) =>
        e = BoxRateEntry.err ↔ r = none) (buildBoxRates ls) ls := by
  have key : aggregateAddressRates (buildBoxRates (l₁ ++ none :: l₂)) =
      aggregateAddressRates (buildBoxRates (l₁ ++ l₂)) := by
    simp [aggregateAddressRates, buildBoxRates, List.map_append, List.foldl_append,
      addEntryRates]
  refine ⟨key, ?_, ?_⟩
  · simp [quoteTotalsByService, List.map_append, key]
  · induction ls with
    | nil => exact List.Forall₂.nil
    | cons r rest ih =>
      cases r <;> exact List.Forall₂.cons (by simp [buildBoxRates]) ih

/-! ## Claim C9 — parse-failure handling in the quote and ship flows -/

/-- C9 counterexample: in the ship flow a parse failure does *not* reject the
whole request — with one unparsable and one parsable address, the parsable
address is still packed and shipped (its entry is a successful `ok` with a
created shipment), while the bad address only gets a per-address error
entry. -/
theorem ship_parse_failure_counterexample :
    shipFlow
        (fun s => if s = "addr-ok" then some ⟨"934 S Clinton St", "Baltimore", "MD", "21224"⟩
          else none)
        (fun s => if s = "16x20x1" then some ⟨16, 20, 1⟩ else none)
        (fun _ _ => some 10)
        [("addr-bad", ["16x20x1"]), ("addr-ok", ["16x20x1"])] =
      [ShipEntry.addrError "addr-bad",
       ShipEntry.ok ⟨"934 S Clinton St", "Baltimore", "MD", "21224"⟩ [some 10] 10] := by
  with_unfolding_all decide

/-- The quote flow's per-address loop returns an `invalidAddress` rejection
whenever any group's address fails to parse. -/
theorem quoteAddressesAux_error (pa : String → Option Address)
    (rl : Address → BoxOut → Option (List (String × ℚ))) :
    ∀ (groups : List (String × List Filter)) (acc : List AddressQuote) (n : ℕ)
      (raw : String) (fs : List Filter), (raw, fs) ∈ groups → pa raw = none →
      ∃ r n', quoteAddressesAux pa rl groups acc n = (QuoteOutcome.invalidAddress r, n') := by
  intro groups
  induction groups with
  | nil => intro acc n raw fs h; simp at h
  | cons g rest ih =>
    intro acc n raw fs hmem hparse
    obtain ⟨graw, gfs⟩ := g
    cases hg : pa graw with
    | none => exact ⟨graw, n, by simp [quoteAddressesAux, hg]⟩
    | some addr =>
      rcases List.mem_cons.mp hmem with heq | hmem'
      · rw [show raw = graw from congrArg Prod.fst heq] at hparse
        rw [hparse] at hg
        cases hg
      · obtain ⟨r, n', hr⟩ := ih (acc ++
            ([⟨addr, packFiltersIntoBoxes gfs,
              buildBoxRates ((packFiltersIntoBoxes gfs).map (rl addr)),
              aggregateAddressRates
                (buildBoxRates ((packFiltersIntoBoxes gfs).map (rl addr)))⟩] :
              List AddressQuote))
          (n + (packFiltersIntoBoxes gfs).length) raw fs hmem' hparse
        refine ⟨r, n', ?_⟩
        simp only [quoteAddressesAux, hg]
        exact hr

/-- C9 (amended): in the quote flow an unparsable size token rejects the
whole request before any rating, and an unparsable address string rejects the
whole request (returning a validation error and no results, though addresses
processed earlier in the loop have already been rated); in the ship flow a
parse failure is *not* terminal — the failing address is recorded as a
per-address error entry and the remaining addresses are still processed and
shipped. -/
theorem quote_fail_fast_ship_continues
    (ps : String → Option Filter) (pa : String → Option Address)
    (rl : Address → BoxOut → Option (List (String × ℚ)))
    (cs : Address → BoxOut → Option ℚ)
    (pairs : List (String × String)) (i : ℕ) (tok : String)
    (groups : List (String × List Filter)) (raw : String) (fs : List Filter)
    (l₁ l₂ : List (String × List String)) (szs : List String) :
    (groupPairs ps pairs = GroupOutcome.invalidSize i tok →
      quoteFlow ps pa rl pairs = (QuoteOutcome.invalidSize i tok, 0))
    ∧ (groupPairs ps pairs = GroupOutcome.ok groups → (raw, fs) ∈ groups → pa raw = none →
      ∃ r n, quoteFlow ps pa rl pairs = (QuoteOutcome.invalidAddress r, n))
    ∧ (pa raw = none →
      shipFlow pa ps cs (l₁ ++ (raw, szs) :: l₂) =
        shipFlow pa ps cs l₁ ++ ShipEntry.addrError raw :: shipFlow pa ps cs l₂) := by
  refine ⟨?_, ?_, ?_⟩
  · intro h
    simp [quoteFlow, h]
  · intro h hmem hparse
    rcases quoteAddressesAux_error pa rl groups [] 0 raw fs hmem hparse with ⟨r, n, hr⟩
    exact ⟨r, n, by simp [quoteFlow, h, hr]⟩
  · intro hparse
    simp [shipFlow, List.map_append, shipAddress, hparse]

/-- C9 witness: the amended ship-flow part at a concrete failing address. -/
theorem quote_fail_fast_ship_continues_witness :
    shipFlow (fun _ => none) (fun _ => none) (fun _ _ => none) ([] ++ ("Bad", []) :: []) =
      shipFlow (fun _ => none) (fun _ => none) (fun _ _ => none) [] ++
        ShipEntry.addrError "Bad" ::
          shipFlow (fun _ => none) (fun _ => none) (fun _ _ => none) [] :=
  (quote_fail_fast_ship_continues (fun _ => none) (fun _ => none) (fun _ _ => none)
    (fun _ _ => none) [] 0 "" [] "Bad" [] [] [] []).2.2 rfl

end UPS
